import Mathlib

/-!
Verification of the icw-api framework core: the rule-based validation and
sanitization engine (framework/util/rules-common.ts, validation.ts,
validation-helper.ts), the error-handler chain
(framework/middlewares/error-exception.middleware.ts), the service
configuration wrapper (framework/util/base-service.ts) and the request
dispatcher wrapper (framework/util/router-builder.ts), shallowly embedded
in Lean.  JavaScript values are modelled by an explicit value universe,
JavaScript objects by association lists in key-insertion order, thrown
errors by an explicit error universe, and fallible operations by Except.
-/

namespace ICWApi

/-- Universe of JavaScript values the framework inspects.  `undef` is the
value of an absent property.  The emptiness and truthiness tests of the
source distinguish exactly `undefined`, `null`, strings, and other values;
numbers and booleans represent the latter. -/
inductive JSValue where
  | undef
  | null
  | str (s : String)
  | num (n : Int)
  | bool (b : Bool)
  deriving DecidableEq, Repr

/-- A JavaScript object used as validation input: fields in insertion order. -/
abbrev Input := List (String × JSValue)

/-- First-occurrence association-list lookup (JS property access on objects
whose literals have unique keys). -/
def alookup {α : Type _} (m : List (String × α)) (k : String) : Option α :=
  (m.find? (fun p => p.1 == k)).map Prod.snd

/-- JS property read `input[f]`: the stored value, or `undefined` when the
key is absent. -/
def lookupField (input : Input) (f : String) : JSValue :=
  (alookup input f).getD JSValue.undef

/-- JS `f in input`: whether the key is present (even with value undefined). -/
def hasKey (input : Input) (f : String) : Bool :=
  (alookup input f).isSome

/-- JS object spread `\x7b ...a, ...b \x7d`: keys of `a` in order with values
overridden by `b` where present, then the keys of `b` not in `a`, in order. -/
def spreadMerge {α : Type _} (a b : List (String × α)) : List (String × α) :=
  a.map (fun p => (p.1, (alookup b p.1).getD p.2)) ++
    b.filter (fun p => (alookup a p.1).isNone)

/-- JS `String(v)` on the modelled values. -/
def jsString : JSValue → String
  | .undef => "undefined"
  | .null => "null"
  | .str s => s
  | .num n => toString n
  | .bool b => if b then "true" else "false"

/-- framework/util/helper.ts `to_string(value, defaultValue)`: returns the
default for `undefined`, `null` and the empty string, else `String(value)`. -/
def to_string (value : JSValue) (defaultValue : String) : String :=
  match value with
  | .undef => defaultValue
  | .null => defaultValue
  | .str "" => defaultValue
  | v => jsString v

/-- JS truthiness coercion `x || null` on a nullable string: a returned empty
string is falsy and collapses to null (`none`). -/
def jsOrNull (o : Option String) : Option String :=
  match o with
  | some s => if s = "" then none else some s
  | none => none

/-- framework/util/rules-common.ts `Rule`: a validation function from the
field value (and, for context-aware rules, the whole input) to an error
message or null, tagged with the optional flags the engine inspects.  In the
source a rule not needing context is called with the value alone; here `run`
always receives the input and context-free rules ignore it. -/
structure Rule where
  run : JSValue → Input → Option String
  needsContext : Bool := false
  isOptional : Bool := false
  isDefault : Bool := false
  defaultValue : JSValue := JSValue.undef

/-- rules-common.ts `required(msg)`: fails when `to_string(v, "")` is falsy,
i.e. exactly on `undefined`, `null` and the empty string. -/
def required (msg : String := "Campo obrigatório") : Rule :=
  { run := fun v _ => if to_string v "" = "" then some msg else none }

/-- rules-common.ts `optional()`: always passes, flagged optional. -/
def optional : Rule :=
  { run := fun _ _ => none, isOptional := true }

/-- rules-common.ts `default_value(value)`: always passes, carries the
default-substitution annotation read by `sanitize`. -/
def default_value (value : JSValue) : Rule :=
  { run := fun _ _ => none
    isOptional := true
    isDefault := true
    defaultValue := value }

/-- framework/util/validation.ts enum member `VALIDATION_ERROR.ERR_FIELD`. -/
def ERR_FIELD : String := "ERR_FIELD"

/-- framework/util/validation.ts enum member `VALIDATION_ERROR.ERR_UNKNOWN`. -/
def ERR_UNKNOWN : String := "ERR_UNKNOWN"

/-- validation.ts `ValidationMessage`: code, message and optional field. -/
structure ValidationMessage where
  code : String
  message : String
  field : Option String := none
  deriving DecidableEq, Repr

/-- validation.ts `Validation`: the ordered list of validation messages.
This object is also what `schema.check` throws on failure. -/
structure Validation where
  messages : List ValidationMessage := []
  deriving DecidableEq, Repr

/-- validation.ts `Validation.add` in its one-argument form `add(message)`
(the only form the validation engine invokes): pushes a message with code
`ERR_UNKNOWN` and field null. -/
def Validation.add (v : Validation) (message : String) : Validation :=
  { v with messages := v.messages ++ [{ code := ERR_UNKNOWN, message := message }] }

/-- validation.ts `Validation.isValid`: no messages recorded. -/
def Validation.isValid (v : Validation) : Bool :=
  v.messages.isEmpty

/-- A rule map `Record<string, Rule[]>` in declaration order.  The source
normalizes a single rule to a one-element array and skips entries that are
not functions; the embedding holds the already-normalized rule arrays. -/
abbrev RuleMap := List (String × List Rule)

/-- Body of the inner `ruleArray.forEach` of validation-helper.ts
`validate`: run each rule on the field value (context-aware rules receive
the whole input) and append each truthy error via `validation.add(error)`. -/
def applyRules (value : JSValue) (input : Input) (rules : List Rule)
    (validation : Validation) : Validation :=
  rules.foldl
    (fun validation r =>
      match r.run value input with
      | some error => if error = "" then validation else validation.add error
      | none => validation)
    validation

/-- validation-helper.ts `validate(input, rules)`: for every declared field
in declaration order, resolve its value and apply its rule sequence,
accumulating the returned error messages. -/
def validate (input : Input) (rules : RuleMap) : Validation :=
  rules.foldl
    (fun validation p => applyRules (lookupField input p.1) input p.2 validation)
    { messages := [] }

/-- validation-helper.ts `sanitize(input, rules)`: whitelist to declared
fields; copy a supplied value through when it is present and not
`undefined`, `null` or the empty string; else substitute the default carried
by the first default-annotated rule; else omit the field.  (A non-object
input is replaced by the empty object before this loop; the embedding takes
the object directly.) -/
def sanitize (input : Input) (rules : RuleMap) : Input :=
  rules.foldl
    (fun result p =>
      let value := lookupField input p.1
      if hasKey input p.1 = true ∧ value ≠ JSValue.undef ∧
          value ≠ JSValue.null ∧ value ≠ JSValue.str "" then
        result ++ [(p.1, value)]
      else
        match p.2.find? (fun r => r.isDefault) with
        | some defaultRule => result ++ [(p.1, defaultRule.defaultValue)]
        | none => result)
    []

/-- Per-field outcome of `sanitize`, used to state its specification: the
copied input value, the substituted default, or omission. -/
def sanitizeField (input : Input) (p : String × List Rule) :
    Option (String × JSValue) :=
  let value := lookupField input p.1
  if hasKey input p.1 = true ∧ value ≠ JSValue.undef ∧
      value ≠ JSValue.null ∧ value ≠ JSValue.str "" then
    some (p.1, value)
  else
    match p.2.find? (fun r => r.isDefault) with
    | some defaultRule => some (p.1, defaultRule.defaultValue)
    | none => none

/-- validation-helper.ts `Schema`: a bound rule map. -/
structure Schema where
  rules : RuleMap

/-- validation-helper.ts `schema(rules)`: binds a rule map. -/
def schema (rules : RuleMap) : Schema :=
  { rules := rules }

/-- `schema(...).check(input)`: runs `validate` and throws the `Validation`
object itself when it is not valid.  A thrown result is `Except.error`. -/
def Schema.check (s : Schema) (input : Input) : Except Validation Unit :=
  let validation := validate input s.rules
  if validation.isValid then Except.ok () else Except.error validation

/-- `schema(...).pick(input)`: runs `sanitize`. -/
def Schema.pick (s : Schema) (input : Input) : Input :=
  sanitize input s.rules

/-- `schema(...).extend(extraRules)`: a brand-new schema over the object
spread of the original and the extra rules. -/
def Schema.extend (s : Schema) (extraRules : RuleMap) : Schema :=
  schema (spreadMerge s.rules extraRules)

/-- Universe of thrown error values distinguished by the error pipeline:
a thrown `Validation`, an `AppException` (message plus HTTP status code),
a body-parser failure (an error whose `type` property is
`entity.parse.failed`), and every other error with its optional `message`
property. -/
inductive ErrValue where
  | validation (v : Validation)
  | appException (message : String) (statusCode : Int)
  | bodyParse (message : String)
  | other (message : Option String)
  deriving DecidableEq, Repr

/-- Payload placed in the `error` slot of the response envelope by the
error handlers: null, a plain string, or the raw validation-message array. -/
inductive ErrPayload where
  | null
  | text (s : String)
  | messages (ms : List ValidationMessage)
  deriving DecidableEq, Repr

/-- The HTTP response emitted by an error handler, in the argument order of
framework/util/app-response.ts `AppResponse(res, statusCode, success, data,
message, error)`. -/
structure HttpResponse where
  statusCode : Int
  success : Bool
  data : JSValue
  message : Option String
  error : ErrPayload
  deriving DecidableEq, Repr

/-- app-response.ts `AppResponse`: builds the envelope at the given status. -/
def AppResponse (statusCode : Int) (success : Bool) (data : JSValue)
    (message : Option String) (error : ErrPayload) : HttpResponse :=
  { statusCode := statusCode, success := success, data := data
    message := message, error := error }

/-- error-exception.middleware.ts `ErrorHandler`: a predicate over the
thrown error and the handler body, modelled as producing the response it
writes. -/
structure ErrorHandler where
  canHandle : ErrValue → Bool
  handle : ErrValue → HttpResponse

/-- error-exception.middleware.ts `ErrorHandlerRegistry.handle`: walk the
registered handlers in order, invoke the first whose `canHandle` matches
and report that the error was handled (`some` response); report `none`
when no handler matched. -/
def ErrorHandlerRegistry.handle :
    List ErrorHandler → ErrValue → Option HttpResponse
  | [], _ => none
  | h :: rest, e =>
      if h.canHandle e then some (h.handle e)
      else ErrorHandlerRegistry.handle rest e

/-- error-exception.middleware.ts `defaultHandlers`: the framework default
chain, in source order — Validation handler (400 with the raw messages
array as error payload), AppException handler (its own status code, its
message as both message and error), JSON-parse handler (400), and the
unconditional catch-all (500, with the error message when truthy or the
generic fallback string). -/
def defaultHandlers : List ErrorHandler :=
  [ { canHandle := fun e => match e with
        | .validation _ => true
        | _ => false
      handle := fun e => match e with
        | .validation v =>
            AppResponse 400 false JSValue.null (some "Erro de validação")
              (ErrPayload.messages v.messages)
        | _ =>
            AppResponse 400 false JSValue.null (some "Erro de validação")
              ErrPayload.null }
  , { canHandle := fun e => match e with
        | .appException _ _ => true
        | _ => false
      handle := fun e => match e with
        | .appException message statusCode =>
            AppResponse statusCode false JSValue.null (some message)
              (ErrPayload.text message)
        | _ =>
            AppResponse 500 false JSValue.null none ErrPayload.null }
  , { canHandle := fun e => match e with
        | .bodyParse _ => true
        | _ => false
      handle := fun e => match e with
        | .bodyParse message =>
            AppResponse 400 false JSValue.null
              (some "Verifique se o JSON está correto") (ErrPayload.text message)
        | _ =>
            AppResponse 400 false JSValue.null none ErrPayload.null }
  , { canHandle := fun _ => true
      handle := fun e =>
        let message :=
          match e with
          | .validation _ => "Erro interno do servidor"
          | .appException m _ => if m = "" then "Erro interno do servidor" else m
          | .bodyParse m => if m = "" then "Erro interno do servidor" else m
          | .other (some m) => if m = "" then "Erro interno do servidor" else m
          | .other none => "Erro interno do servidor"
        AppResponse 500 false JSValue.null (some "Erro interno do servidor")
          (ErrPayload.text message) }
  ]

/-- error-exception.middleware.ts `createErrorMiddleware`: its registration
effect on the global registry, given the handlers already registered — it
appends the framework defaults first (when enabled) and the config-supplied
custom handlers after them. -/
def createErrorMiddleware (prior : List ErrorHandler)
    (useDefaultHandlers : Bool) (customHandlers : List ErrorHandler) :
    List ErrorHandler :=
  (if useDefaultHandlers then prior ++ defaultHandlers else prior) ++
    customHandlers

/-- Whether an error payload associates field `f` with some message, the
shape a per-field mapping entry for `f` would take. -/
def payloadMapsField (p : ErrPayload) (f : String) : Bool :=
  match p with
  | .messages ms => ms.any (fun m => m.field == some f)
  | _ => false

/-- Outcome of invoking a service method once: a synchronous return or
throw, or an awaitable that resolves or rejects. -/
inductive CallResult where
  | sync (r : Except ErrValue JSValue)
  | async (r : Except ErrValue JSValue)

/-- framework/util/base-service.ts `BaseService` instance data: the three
configuration fields plus the behavior of its methods, as a map from method
name and argument to the call outcome. -/
structure BaseService where
  throwOnError : Bool := true
  transaction : Option JSValue := none
  context : List (String × JSValue) := []
  methods : String → JSValue → CallResult

/-- The partial `ServiceConfig` overrides `createProxy` receives. -/
structure ServiceConfigPatch where
  throwOnError : Option Bool := none
  transaction : Option JSValue := none
  context : Option (List (String × JSValue)) := none

/-- base-service.ts `BaseService.createProxy`: clone the instance data,
apply the supplied configuration overrides (context is spread over the
current context).  Method interception by the surrounding Proxy is modelled
by `proxyInvoke`. -/
def BaseService.createProxy (s : BaseService) (config : ServiceConfigPatch) :
    BaseService :=
  { s with
    throwOnError := config.throwOnError.getD s.throwOnError
    transaction :=
      match config.transaction with
      | some t => some t
      | none => s.transaction
    context :=
      match config.context with
      | some c => spreadMerge s.context c
      | none => s.context }

/-- JS `prop.startsWith("_")` on a method name: its first character is an
underscore. -/
def isUnderscorePrefixed (name : String) : Bool :=
  match name.data with
  | [] => false
  | c :: _ => c = Char.ofNat 95

/-- A method call through the Proxy trap of `createProxy`: names starting
with an underscore bypass interception; otherwise a synchronous throw or an
asynchronous rejection is swallowed to `null` when the view carries
`throwOnError = false`, and propagates unchanged when it carries
`throwOnError = true`; success values pass through untouched. -/
def proxyInvoke (s : BaseService) (name : String) (arg : JSValue) :
    CallResult :=
  let original := s.methods name arg
  if isUnderscorePrefixed name then original
  else
    match original with
    | .sync (.ok v) => .sync (.ok v)
    | .sync (.error e) =>
        if s.throwOnError then .sync (.error e) else .sync (.ok JSValue.null)
    | .async (.ok v) => .async (.ok v)
    | .async (.error e) =>
        if s.throwOnError then .async (.error e) else .async (.ok JSValue.null)

/-- base-service.ts `BaseService.silent`: a proxied view with
`throwOnError = false`. -/
def BaseService.silent (s : BaseService) : BaseService :=
  s.createProxy { throwOnError := some false }

/-- base-service.ts `BaseService.withTransaction`: a proxied view bound to
the transaction handle. -/
def BaseService.withTransaction (s : BaseService) (t : JSValue) : BaseService :=
  s.createProxy { transaction := some t }

/-- base-service.ts `BaseService.withContext`: a proxied view whose context
is the spread of the current context and the extra context. -/
def BaseService.withContext (s : BaseService)
    (context : List (String × JSValue)) : BaseService :=
  s.createProxy { context := some (spreadMerge s.context context) }

/-- A method call on the original, un-proxied instance: no interception. -/
def directInvoke (s : BaseService) (name : String) (arg : JSValue) :
    CallResult :=
  s.methods name arg

/-- framework/util/response-builder.ts `ApiResponse`: data, explicit status
code and optional message. -/
structure ApiResponse where
  data : JSValue
  statusCode : Int := 200
  message : Option String := none
  deriving DecidableEq, Repr

/-- What a route handler returned when it did not throw: `undefined`, an
`ApiResponse` instance, or any other defined value. -/
inductive HandlerResult where
  | undef
  | api (r : ApiResponse)
  | value (v : JSValue)
  deriving DecidableEq, Repr

/-- The uniform success envelope body written by the dispatcher wrapper. -/
structure Envelope where
  success : Bool
  message : Option String
  data : JSValue
  error : JSValue
  deriving DecidableEq, Repr

/-- Observable outcome of the dispatcher wrapper for one request: no
response written at all, a response at a status code, or the error forwarded
to the error pipeline via `next(error)`. -/
inductive DispatchOutcome where
  | noResponse
  | respond (statusCode : Int) (body : Envelope)
  | forward (e : ErrValue)
  deriving DecidableEq, Repr

/-- framework/util/router-builder.ts `wrappedHandler` inside
`RouteBuilder.registerRoutes`: await the handler; a throw is forwarded to
the error pipeline; otherwise if headers were already sent do nothing; an
`ApiResponse` is emitted as `success:true / message or null / data /
error:null` at its status code; any other defined value is emitted the same
way at the transport default status 200; an `undefined` return emits
nothing. -/
def wrappedHandler (headersSent : Bool) (result : Except ErrValue HandlerResult) :
    DispatchOutcome :=
  match result with
  | .error e => .forward e
  | .ok r =>
      if headersSent then .noResponse
      else
        match r with
        | .undef => .noResponse
        | .api a =>
            .respond a.statusCode
              { success := true, message := jsOrNull a.message
                data := a.data, error := JSValue.null }
        | .value v =>
            .respond 200
              { success := true, message := none
                data := v, error := JSValue.null }

/-! ## Specification lemmas for the validation engine -/

/-- The inner rule loop appends, in order, one `ERR_UNKNOWN` / field-null
message for every rule whose result is a truthy (non-empty) string. -/
theorem applyRules_messages (value : JSValue) (input : Input) :
    ∀ (rs : List Rule) (vl : Validation),
      (applyRules value input rs vl).messages =
        vl.messages ++
          (rs.filterMap (fun r => jsOrNull (r.run value input))).map
            (fun m => { code := ERR_UNKNOWN, message := m }) := by
  intro rs
  induction rs with
  | nil => intro vl; simp [applyRules]
  | cons r rest ih =>
      intro vl
      have hstep : applyRules value input (r :: rest) vl =
          applyRules value input rest
            (match r.run value input with
             | some error => if error = "" then vl else vl.add error
             | none => vl) := rfl
      rw [hstep, List.filterMap_cons]
      rcases h : r.run value input with _ | e
      · simp [h, ih, jsOrNull]
      · by_cases he : e = ""
        · subst he
          simp [h, ih, jsOrNull]
        · simp [h, he, ih, jsOrNull, Validation.add]

/-- `validate` concatenates, field by field in declaration order, the
messages of every failing rule of every field. -/
theorem validate_messages_spec (input : Input) (rm : RuleMap) :
    (validate input rm).messages =
      rm.flatMap (fun p =>
        ((p.2).filterMap
            (fun r => jsOrNull (r.run (lookupField input p.1) input))).map
          (fun m => { code := ERR_UNKNOWN, message := m })) := by
  have hgen : ∀ (l : RuleMap) (vl : Validation),
      (l.foldl
          (fun validation p =>
            applyRules (lookupField input p.1) input p.2 validation) vl).messages =
        vl.messages ++
          l.flatMap (fun p =>
            ((p.2).filterMap
                (fun r => jsOrNull (r.run (lookupField input p.1) input))).map
              (fun m => { code := ERR_UNKNOWN, message := m })) := by
    intro l
    induction l with
    | nil => intro vl; simp
    | cons p rest ih =>
        intro vl
        rw [List.foldl_cons, List.flatMap_cons, ih, applyRules_messages,
          List.append_assoc]
  have h := hgen rm { messages := [] }
  simpa [validate] using h

/-- C1 (counterexample): against the claimed short-circuit, a field whose
value fails two rules in sequence contributes both error messages — after
the first rule `required "A"` fails on the absent field, the second rule
`required "B"` is still evaluated and its message is also recorded, so the
field does not contribute only the first error. -/
theorem validate_no_short_circuit_cex :
    (validate [] [("f", [required "A", required "B"])]).messages =
      [{ code := ERR_UNKNOWN, message := "A" },
       { code := ERR_UNKNOWN, message := "B" }] ∧
    (validate [] [("f", [required "A", required "B"])]).messages ≠
      [{ code := ERR_UNKNOWN, message := "A" }] := by
  exact ⟨rfl, by decide⟩

/-- C1 (amended): evaluation of a field rule sequence does not
short-circuit — every rule in the sequence is evaluated, and every rule
returning a truthy (non-empty) error message contributes one message with
code `ERR_UNKNOWN` and field null to the ValidationResult, in declaration
order, field by field. -/
theorem validate_accumulates_all_errors (input : Input) (rm : RuleMap) :
    (validate input rm).messages =
      rm.flatMap (fun p =>
        ((p.2).filterMap
            (fun r => jsOrNull (r.run (lookupField input p.1) input))).map
          (fun m => { code := ERR_UNKNOWN, message := m })) :=
  validate_messages_spec input rm

/-- C2 (counterexample): for the schema with field `name` carrying
`required`, an input whose `name` is a whitespace-only string passes
`check` entirely (the claim requires a failure), and for the empty input
the recorded entry carries field null rather than being keyed by the field
name `name`. -/
theorem required_missing_field_cex :
    (schema [("name", [required "Campo obrigatório"])]).check
        [("name", JSValue.str " ")] = Except.ok () ∧
    (schema [("name", [required "Campo obrigatório"])]).check [] =
      Except.error
        { messages := [{ code := ERR_UNKNOWN, message := "Campo obrigatório" }] } := by
  exact ⟨rfl, rfl⟩

/-- C2 (amended): for every schema in which field `f` carries the rule
`required msg` (with a non-empty message) and every input in which `f` is
absent, null, or the empty string — but not whitespace-only, which the code
accepts — `check` throws a ValidationResult whose messages contain the
required message with code `ERR_UNKNOWN` and field null (not keyed by the
field name), and `isValid()` on it is false. -/
theorem required_missing_field_check_fails (rm : RuleMap) (f : String)
    (rs : List Rule) (msg : String) (input : Input)
    (hmem : (f, rs) ∈ rm) (hrule : required msg ∈ rs) (hmsg : msg ≠ "")
    (hempty : lookupField input f = JSValue.undef ∨
      lookupField input f = JSValue.null ∨
      lookupField input f = JSValue.str "") :
    ∃ v : Validation,
      (schema rm).check input = Except.error v ∧
      ({ code := ERR_UNKNOWN, message := msg, field := none } :
        ValidationMessage) ∈ v.messages ∧
      v.isValid = false := by
  have hrun : jsOrNull ((required msg).run (lookupField input f) input) = some msg := by
    rcases hempty with h | h | h <;>
      simp [required, to_string, h, jsOrNull, hmsg]
  have hmem2 : ({ code := ERR_UNKNOWN, message := msg, field := none } :
      ValidationMessage) ∈ (validate input rm).messages := by
    rw [validate_messages_spec]
    refine List.mem_flatMap.mpr ⟨(f, rs), hmem, ?_⟩
    exact List.mem_map.mpr ⟨msg, List.mem_filterMap.mpr ⟨required msg, hrule, hrun⟩, rfl⟩
  have hvalid : (validate input rm).isValid = false := by
    unfold Validation.isValid
    simp only [List.isEmpty_eq_false_iff_exists_mem]
    exact ⟨_, hmem2⟩
  refine ⟨validate input rm, ?_, hmem2, hvalid⟩
  unfold Schema.check schema
  simp [hvalid]

/-- C2 (witness): the amended theorem at the concrete schema
`name : [required]` and the empty input. -/
theorem required_missing_field_check_fails_witness :
    ∃ v : Validation,
      (schema [("name", [required "Campo obrigatório"])]).check [] =
        Except.error v ∧
      ({ code := ERR_UNKNOWN, message := "Campo obrigatório", field := none } :
        ValidationMessage) ∈ v.messages ∧
      v.isValid = false :=
  required_missing_field_check_fails
    [("name", [required "Campo obrigatório"])] "name"
    [required "Campo obrigatório"] "Campo obrigatório" []
    (by simp) (by simp) (by decide) (Or.inl rfl)

/-! ## Specification lemmas for sanitize -/

/-- One step of the `sanitize` loop appends the per-field outcome. -/
theorem sanitize_step_eq (input : Input) (result : Input)
    (p : String × List Rule) :
    (let value := lookupField input p.1
     if hasKey input p.1 = true ∧ value ≠ JSValue.undef ∧
         value ≠ JSValue.null ∧ value ≠ JSValue.str "" then
       result ++ [(p.1, value)]
     else
       match p.2.find? (fun r => r.isDefault) with
       | some defaultRule => result ++ [(p.1, defaultRule.defaultValue)]
       | none => result) =
      result ++ (sanitizeField input p).toList := by
  by_cases hc : hasKey input p.1 = true ∧ lookupField input p.1 ≠ JSValue.undef ∧
      lookupField input p.1 ≠ JSValue.null ∧ lookupField input p.1 ≠ JSValue.str ""
  · simp [sanitizeField, hc]
  · simp only [sanitizeField, hc, if_false]
    rcases hf : p.2.find? (fun r => r.isDefault) with _ | defaultRule <;> simp [hf]

/-- `sanitize` is the per-field outcome collected over the declared fields
in declaration order. -/
theorem sanitize_eq_filterMap (input : Input) (rm : RuleMap) :
    sanitize input rm = rm.filterMap (sanitizeField input) := by
  have hgen : ∀ (l : RuleMap) (acc : Input),
      l.foldl
          (fun result p =>
            let value := lookupField input p.1
            if hasKey input p.1 = true ∧ value ≠ JSValue.undef ∧
                value ≠ JSValue.null ∧ value ≠ JSValue.str "" then
              result ++ [(p.1, value)]
            else
              match p.2.find? (fun r => r.isDefault) with
              | some defaultRule => result ++ [(p.1, defaultRule.defaultValue)]
              | none => result)
          acc = acc ++ l.filterMap (sanitizeField input) := by
    intro l
    induction l with
    | nil => intro acc; simp
    | cons p rest ih =>
        intro acc
        rw [List.foldl_cons, List.filterMap_cons, sanitize_step_eq]
        rcases hsf : sanitizeField input p with _ | entry <;>
          simp [hsf, ih, List.append_assoc]
  have h := hgen rm []
  simpa [sanitize] using h

/-- The per-field outcome, when present, keeps the field name as its key. -/
theorem sanitizeField_key (input : Input) (p : String × List Rule)
    (x : String × JSValue) (h : sanitizeField input p = some x) :
    x.1 = p.1 := by
  unfold sanitizeField at h
  dsimp only at h
  split at h
  · cases h
    rfl
  · split at h
    · cases h
      rfl
    · cases h

/-- Association lookup on a cons cell. -/
theorem alookup_cons {α : Type _} (k0 : String) (v : α)
    (rest : List (String × α)) (k : String) :
    alookup ((k0, v) :: rest) k =
      if k0 == k then some v else alookup rest k := by
  unfold alookup
  cases h : (k0 == k) <;> simp [List.find?_cons, h]

/-- Fields produced by the sanitize loop all come from the declared rule
map, so a key absent from the rule map is absent from the result. -/
theorem alookup_filterMap_none (input : Input) (rm : RuleMap) (k : String)
    (h : ∀ p ∈ rm, (p.1 == k) = false) :
    alookup (rm.filterMap (sanitizeField input)) k = none := by
  have hfind : (rm.filterMap (sanitizeField input)).find?
      (fun p => p.1 == k) = none := by
    rw [List.find?_eq_none]
    intro x hx
    rcases List.mem_filterMap.mp hx with ⟨p, hp, hsf⟩
    have hkey := sanitizeField_key input p x hsf
    simp [hkey, h p hp]
  simp [alookup, hfind]

/-- Per-key specification of the sanitize loop output over a rule map with
distinct field names. -/
theorem alookup_filterMap_spec (input : Input) (f : String) :
    ∀ rm : RuleMap, (rm.map Prod.fst).Nodup →
      alookup (rm.filterMap (sanitizeField input)) f =
        match alookup rm f with
        | none => none
        | some rs =>
            if hasKey input f = true ∧ lookupField input f ≠ JSValue.undef ∧
                lookupField input f ≠ JSValue.null ∧
                lookupField input f ≠ JSValue.str "" then
              some (lookupField input f)
            else
              match rs.find? (fun r => r.isDefault) with
              | some defaultRule => some defaultRule.defaultValue
              | none => none := by
  intro rm
  induction rm with
  | nil => intro _; rfl
  | cons p rest ih =>
      intro hnd
      rw [List.map_cons, List.nodup_cons] at hnd
      obtain ⟨hnotin, hrest⟩ := hnd
      obtain ⟨k0, rs0⟩ := p
      rw [List.filterMap_cons]
      by_cases hk : (k0 == f) = true
      · have hk0 : k0 = f := eq_of_beq hk
        subst hk0
        rcases hsf : sanitizeField input (k0, rs0) with _ | entry
        · have hnone : alookup (rest.filterMap (sanitizeField input)) k0 = none := by
            apply alookup_filterMap_none
            intro q hq
            cases hqk : (q.1 == k0)
            · rfl
            · have hq1 : q.1 = k0 := eq_of_beq hqk
              have hmem : q.1 ∈ rest.map Prod.fst :=
                List.mem_map_of_mem Prod.fst hq
              rw [hq1] at hmem
              exact absurd hmem hnotin
          rw [hnone, alookup_cons]
          simp only [beq_self_eq_true, if_true]
          unfold sanitizeField at hsf
          dsimp only at hsf
          split at hsf
          · cases hsf
          · rename_i hcond
            split at hsf
            · cases hsf
            · rename_i hfind
              simp [hcond, hfind]
        · have hkey := sanitizeField_key input (k0, rs0) entry hsf
          obtain ⟨ek, ev⟩ := entry
          dsimp only at hkey
          subst hkey
          rw [alookup_cons, alookup_cons]
          simp only [beq_self_eq_true, if_true]
          unfold sanitizeField at hsf
          dsimp only at hsf
          split at hsf
          · rename_i hcond
            cases hsf
            simp [hcond]
          · rename_i hcond
            split at hsf
            · rename_i hfind
              cases hsf
              simp [hcond, hfind]
            · cases hsf
      · have hrhs : alookup ((k0, rs0) :: rest) f = alookup rest f := by
          rw [alookup_cons]
          simp [hk]
        rw [hrhs]
        rcases hsf : sanitizeField input (k0, rs0) with _ | entry
        · exact ih hrest
        · have hkey := sanitizeField_key input (k0, rs0) entry hsf
          obtain ⟨ek, ev⟩ := entry
          dsimp only at hkey
          subst hkey
          rw [alookup_cons]
          simp only [hk, if_false]
          exact ih hrest

/-- C3 (counterexample): against the claimed emptiness definition, a
whitespace-only input value is NOT treated as empty by `sanitize` — for a
field carrying `default_value "d"`, the input value consisting of one space
is copied through unchanged instead of being replaced by the default. -/
theorem sanitize_whitespace_cex :
    sanitize [("f", JSValue.str " ")] [("f", [default_value (JSValue.str "d")])] =
      [("f", JSValue.str " ")] ∧
    JSValue.str " " ≠ JSValue.str "d" := by
  exact ⟨rfl, by decide⟩

/-- C3 (amended): over a rule map with distinct field names, `pick` and
`sanitize` return a record containing only declared fields; a declared
field equals the input value copied through unchanged when the input
supplies it with a value other than undefined, null, or the empty string
(whitespace-only strings count as supplied and win over the default), else
equals the defaultValue of the first default-annotated rule when one
exists, and is otherwise omitted; in particular `pick` of the empty input
yields the default for default-carrying fields, and a supplied value wins
over the default. -/
theorem sanitize_pick_characterization (input : Input) (rm : RuleMap)
    (f : String) (hnd : (rm.map Prod.fst).Nodup) :
    alookup ((schema rm).pick input) f =
      match alookup rm f with
      | none => none
      | some rs =>
          if hasKey input f = true ∧ lookupField input f ≠ JSValue.undef ∧
              lookupField input f ≠ JSValue.null ∧
              lookupField input f ≠ JSValue.str "" then
            some (lookupField input f)
          else
            match rs.find? (fun r => r.isDefault) with
            | some defaultRule => some defaultRule.defaultValue
            | none => none := by
  show alookup (sanitize input rm) f = _
  rw [sanitize_eq_filterMap]
  exact alookup_filterMap_spec input f rm hnd

/-- C3 (witness): the amended theorem at the concrete rule map with a
default-carrying field and the empty input, yielding the default. -/
theorem sanitize_pick_characterization_witness :
    alookup ((schema [("f", [default_value (JSValue.str "d")])]).pick [])
      "f" = some (JSValue.str "d") := by
  rw [sanitize_pick_characterization [] [("f", [default_value (JSValue.str "d")])]
    "f" (by simp)]
  rfl

/-! ## Specification lemmas for the error handler registry -/

/-- The registry loop is first-match selection over the handler list. -/
theorem handle_eq_find (hs : List ErrorHandler) (e : ErrValue) :
    ErrorHandlerRegistry.handle hs e =
      (hs.find? (fun h => h.canHandle e)).map (fun h => h.handle e) := by
  induction hs with
  | nil => rfl
  | cons h rest ih =>
      rw [ErrorHandlerRegistry.handle, List.find?_cons]
      cases hc : h.canHandle e <;> simp [hc, ih]

/-- The registry loop distributes over handler-list concatenation. -/
theorem handle_append (xs ys : List ErrorHandler) (e : ErrValue) :
    ErrorHandlerRegistry.handle (xs ++ ys) e =
      match ErrorHandlerRegistry.handle xs e with
      | some r => some r
      | none => ErrorHandlerRegistry.handle ys e := by
  induction xs with
  | nil => simp [ErrorHandlerRegistry.handle]
  | cons h rest ih =>
      rw [List.cons_append, ErrorHandlerRegistry.handle,
        ErrorHandlerRegistry.handle]
      cases hc : h.canHandle e <;> simp [hc, ih]

/-- The framework default chain handles every error: its final catch-all
matches unconditionally. -/
theorem defaultHandlers_isSome (e : ErrValue) :
    (ErrorHandlerRegistry.handle defaultHandlers e).isSome = true := by
  cases e <;> rfl

/-- C4 (counterexample): for the schema `name : [required]` and the empty
input, `check` throws a ValidationResult and the default pipeline answers
with status 400, but the emitted `error` payload is the raw
validation-message array whose single entry has field null — it is not a
per-field mapping and associates nothing with the field name `name`. -/
theorem validation_error_payload_cex :
    (schema [("name", [required "Campo obrigatório"])]).check [] =
      Except.error
        { messages := [{ code := ERR_UNKNOWN, message := "Campo obrigatório" }] } ∧
    ErrorHandlerRegistry.handle defaultHandlers
        (ErrValue.validation
          { messages := [{ code := ERR_UNKNOWN, message := "Campo obrigatório" }] }) =
      some (AppResponse 400 false JSValue.null (some "Erro de validação")
        (ErrPayload.messages
          [{ code := ERR_UNKNOWN, message := "Campo obrigatório" }])) ∧
    payloadMapsField
        (ErrPayload.messages
          [{ code := ERR_UNKNOWN, message := "Campo obrigatório" }]) "name" =
      false := by
  exact ⟨rfl, rfl, by decide⟩

/-- C4 (amended): whenever a ValidationResult raised by `schema.check`
reaches the error pipeline with default handlers enabled, the emitted
response has HTTP status 400, success false, message "Erro de validação",
and its `error` payload is the raw array of validation messages of the
result (each entry carrying code, message, and a null field) — not a
field-name-to-message mapping. -/
theorem validation_error_response_400 (rm : RuleMap) (input : Input)
    (v : Validation) (hthrow : (schema rm).check input = Except.error v) :
    ErrorHandlerRegistry.handle (createErrorMiddleware [] true [])
        (ErrValue.validation v) =
      some (AppResponse 400 false JSValue.null (some "Erro de validação")
        (ErrPayload.messages v.messages)) := rfl

/-- C4 (witness): the amended theorem at the schema `name : [required]`
and the empty input. -/
theorem validation_error_response_400_witness :
    ErrorHandlerRegistry.handle (createErrorMiddleware [] true [])
        (ErrValue.validation
          { messages := [{ code := ERR_UNKNOWN, message := "Campo obrigatório" }] }) =
      some (AppResponse 400 false JSValue.null (some "Erro de validação")
        (ErrPayload.messages
          [{ code := ERR_UNKNOWN, message := "Campo obrigatório" }])) :=
  validation_error_response_400 [("name", [required "Campo obrigatório"])] [] _ rfl

/-- C5 (counterexample): with default handlers enabled and one
project-supplied custom handler that can handle every error, the handler
actually invoked for a thrown plain error is the framework catch-all
(response 500), not the custom handler (whose response would be 418) —
default handlers are registered before, not after, the config-supplied
custom handlers. -/
theorem default_handlers_precede_custom_cex :
    (ErrorHandler.canHandle
        { canHandle := fun _ => true
          handle := fun _ =>
            AppResponse 418 false JSValue.null (some "custom") ErrPayload.null }
        (ErrValue.other none)) = true ∧
    ErrorHandlerRegistry.handle
        (createErrorMiddleware [] true
          [{ canHandle := fun _ => true
             handle := fun _ =>
               AppResponse 418 false JSValue.null (some "custom") ErrPayload.null }])
        (ErrValue.other none) =
      some (AppResponse 500 false JSValue.null (some "Erro interno do servidor")
        (ErrPayload.text "Erro interno do servidor")) ∧
    AppResponse 500 false JSValue.null (some "Erro interno do servidor")
        (ErrPayload.text "Erro interno do servidor") ≠
      AppResponse 418 false JSValue.null (some "custom") ErrPayload.null := by
  exact ⟨rfl, rfl, by decide⟩

/-- C5 (amended): `createErrorMiddleware` with defaults enabled appends the
framework default handler set BEFORE the config-supplied custom handlers
(after whatever was already in the registry), so starting from an empty
registry the dispatch outcome for every error is decided by the default
chain alone — a custom handler that a default handler shadows is never
invoked (defaults take precedence over config-supplied handlers). -/
theorem default_handlers_registered_first (prior custom : List ErrorHandler)
    (e : ErrValue) :
    createErrorMiddleware prior true custom =
      prior ++ defaultHandlers ++ custom ∧
    ErrorHandlerRegistry.handle (createErrorMiddleware [] true custom) e =
      ErrorHandlerRegistry.handle defaultHandlers e := by
  constructor
  · simp [createErrorMiddleware, List.append_assoc]
  · have h1 : createErrorMiddleware [] true custom =
        defaultHandlers ++ custom := by
      simp [createErrorMiddleware]
    rw [h1, handle_append]
    have hsome := defaultHandlers_isSome e
    rcases hd : ErrorHandlerRegistry.handle defaultHandlers e with _ | r
    · rw [hd] at hsome
      cases hsome
    · simp

/-- C9 (confirmed): `ErrorHandlerRegistry.handle` invokes exactly the first
registered handler (in registration order) whose `canHandle` matches and
reports the error handled; it reports unhandled exactly when no registered
handler matches; and whenever the framework default handlers are in the
registry, the unconditional catch-all guarantees every error is handled. -/
theorem registry_handle_first_match (handlers : List ErrorHandler)
    (e : ErrValue) :
    ErrorHandlerRegistry.handle handlers e =
      (handlers.find? (fun h => h.canHandle e)).map (fun h => h.handle e) ∧
    (ErrorHandlerRegistry.handle handlers e = none ↔
      ∀ h ∈ handlers, h.canHandle e = false) ∧
    (∀ pre post : List ErrorHandler,
      (ErrorHandlerRegistry.handle (pre ++ defaultHandlers ++ post) e).isSome =
        true) := by
  refine ⟨handle_eq_find handlers e, ?_, ?_⟩
  · rw [handle_eq_find]
    constructor
    · intro h
      have hfind : handlers.find? (fun h => h.canHandle e) = none := by
        rcases hf : handlers.find? (fun h => h.canHandle e) with _ | r
        · exact hf
        · rw [hf] at h
          cases h
      intro h2 hmem
      have := List.find?_eq_none.mp hfind h2 hmem
      simpa using this
    · intro hall
      have hfind : handlers.find? (fun h => h.canHandle e) = none :=
        List.find?_eq_none.mpr (fun x hx => by simp [hall x hx])
      rw [hfind]
      rfl
  · intro pre post
    rw [List.append_assoc, handle_append]
    rcases hp : ErrorHandlerRegistry.handle pre e with _ | r
    · rw [handle_append]
      have hsome := defaultHandlers_isSome e
      rcases hd : ErrorHandlerRegistry.handle defaultHandlers e with _ | r2
      · rw [hd] at hsome
        cases hsome
      · rfl
    · rfl

/-- C9 (witness): the first-match specification applied at the default
handler chain and a plain error, with empty surrounding registrations. -/
theorem registry_handle_first_match_witness :
    (ErrorHandlerRegistry.handle
        (([] : List ErrorHandler) ++ defaultHandlers ++ [])
        (ErrValue.other none)).isSome = true :=
  (registry_handle_first_match defaultHandlers (ErrValue.other none)).2.2 [] []

/-- C6 (confirmed): for every service and every public
(non-underscore-prefixed) method, a method that throws synchronously or
rejects its awaitable, called on the view obtained via `silent()`, returns
an empty result (null) instead of propagating; the same call on the
original un-wrapped instance still produces the throw; and on any view
whose `throwOnError` is true the error propagates unchanged through the
interception. -/
theorem silent_view_swallows_errors (s : BaseService) (name : String)
    (arg : JSValue) (e : ErrValue) (hpub : isUnderscorePrefixed name = false) :
    (s.methods name arg = CallResult.sync (Except.error e) →
        proxyInvoke s.silent name arg = CallResult.sync (Except.ok JSValue.null)) ∧
    (s.methods name arg = CallResult.async (Except.error e) →
        proxyInvoke s.silent name arg = CallResult.async (Except.ok JSValue.null)) ∧
    s.silent.throwOnError = false ∧
    directInvoke s name arg = s.methods name arg ∧
    (s.throwOnError = true → s.methods name arg = CallResult.sync (Except.error e) →
        proxyInvoke s name arg = CallResult.sync (Except.error e)) ∧
    (s.throwOnError = true → s.methods name arg = CallResult.async (Except.error e) →
        proxyInvoke s name arg = CallResult.async (Except.error e)) := by
  refine ⟨?_, ?_, rfl, rfl, ?_, ?_⟩
  · intro h
    simp [proxyInvoke, BaseService.silent, BaseService.createProxy, hpub, h]
  · intro h
    simp [proxyInvoke, BaseService.silent, BaseService.createProxy, hpub, h]
  · intro ht h
    simp [proxyInvoke, hpub, h, ht]
  · intro ht h
    simp [proxyInvoke, hpub, h, ht]

/-- C6 (witness): a concrete service whose method `boom` throws
synchronously — through the silent view the call returns null. -/
theorem silent_view_swallows_errors_witness :
    proxyInvoke
        (BaseService.silent
          { methods := fun n _ =>
              if n = "boom" then
                CallResult.sync (Except.error (ErrValue.other (some "x")))
              else CallResult.sync (Except.ok JSValue.null) })
        "boom" JSValue.null = CallResult.sync (Except.ok JSValue.null) :=
  (silent_view_swallows_errors
      { methods := fun n _ =>
          if n = "boom" then
            CallResult.sync (Except.error (ErrValue.other (some "x")))
          else CallResult.sync (Except.ok JSValue.null) }
      "boom" JSValue.null (ErrValue.other (some "x")) (by decide)).1 rfl

/-- C7 (confirmed): for a dispatched handler that completes without
throwing and without headers already sent, an `ApiResponse` return is
emitted as the envelope success true / its message (or null when absent or
empty) / its data / error null at its own status code, and any other
defined return value is emitted in the same envelope shape at status 200
with a null message. -/
theorem dispatch_success_envelope (a : ApiResponse) (v : JSValue) :
    wrappedHandler false (Except.ok (HandlerResult.api a)) =
      DispatchOutcome.respond a.statusCode
        { success := true, message := jsOrNull a.message, data := a.data
          error := JSValue.null } ∧
    wrappedHandler false (Except.ok (HandlerResult.value v)) =
      DispatchOutcome.respond 200
        { success := true, message := none, data := v
          error := JSValue.null } :=
  ⟨rfl, rfl⟩

/-- C10 (confirmed): when the handler completes normally returning
undefined and headers were not sent, the dispatcher wrapper emits no
response and forwards nothing to the error pipeline — the request is left
unanswered. -/
theorem undefined_return_emits_nothing :
    wrappedHandler false (Except.ok HandlerResult.undef) =
      DispatchOutcome.noResponse := rfl

/-! ## Specification lemmas for schema extension -/

/-- Association lookup distributes over list concatenation. -/
theorem alookup_append {α : Type _} (xs ys : List (String × α)) (k : String) :
    alookup (xs ++ ys) k =
      match alookup xs k with
      | some v => some v
      | none => alookup ys k := by
  induction xs with
  | nil => simp [alookup]
  | cons p rest ih =>
      obtain ⟨k0, v0⟩ := p
      rw [List.cons_append, alookup_cons, alookup_cons]
      cases h : (k0 == k) <;> simp [h, ih]

/-- Association lookup through a key-preserving map. -/
theorem alookup_map_value {α β : Type _} (a : List (String × α))
    (g : String × α → β) (k : String) :
    alookup (a.map (fun p => (p.1, g p))) k =
      (a.find? (fun p => p.1 == k)).map (fun p => g p) := by
  induction a with
  | nil => rfl
  | cons p rest ih =>
      rw [List.map_cons, List.find?_cons]
      obtain ⟨k0, v0⟩ := p
      rw [alookup_cons]
      cases h : (k0 == k) <;> simp [h, ih]

/-- Filtering out the keys of `a` does not affect lookups of keys absent
from `a`. -/
theorem alookup_filter_of_none {α : Type _} (a : List (String × α))
    (k : String) (h : alookup a k = none) :
    ∀ b : List (String × α),
      alookup (b.filter (fun p => (alookup a p.1).isNone)) k = alookup b k := by
  intro b
  induction b with
  | nil => rfl
  | cons q rest ih =>
      obtain ⟨k1, w⟩ := q
      rw [List.filter_cons, alookup_cons]
      cases hk : (k1 == k)
      · by_cases hkeep : ((alookup a k1).isNone : Bool) = true
        · simp only [hkeep, if_true, alookup_cons, hk]
          simpa using ih
        · simp only [hkeep, if_false]
          simpa using ih
      · have hk1 : k1 = k := eq_of_beq hk
        subst hk1
        have hkeep : ((alookup a k1).isNone : Bool) = true := by
          simp [h]
        simp [hkeep, alookup_cons]

/-- Lookup in a JS object spread is right-biased: the second object wins on
shared keys, the first supplies the rest. -/
theorem alookup_spreadMerge {α : Type _} (a b : List (String × α))
    (k : String) :
    alookup (spreadMerge a b) k =
      match alookup b k with
      | some v => some v
      | none => alookup a k := by
  unfold spreadMerge
  rw [alookup_append, alookup_map_value]
  rcases hf : a.find? (fun p => p.1 == k) with _ | p0
  · have ha : alookup a k = none := by
      simp [alookup, hf]
    rw [hf, alookup_filter_of_none a k ha b]
    rcases hb : alookup b k with _ | w <;> simp [ha, hb]
  · have hp0 := List.find?_some hf
    have hp0k : p0.1 = k := eq_of_beq (by simpa using hp0)
    have ha : alookup a k = some p0.2 := by
      simp [alookup, hf]
    rw [hf, Option.map_some', hp0k]
    rcases hb : alookup b k with _ | w <;> simp [ha, hb]

/-- C8 (confirmed): `schema(A).extend(B)` is a brand-new schema whose rule
map is the right-biased union of A and B — on a shared field name B wins,
keys come from either map — while the original schema still carries
exactly the rule map A (schemas are values; extension never mutates). -/
theorem schema_extend_right_biased (A B : RuleMap) :
    ((schema A).extend B).rules = spreadMerge A B ∧
    (∀ k, alookup ((schema A).extend B).rules k =
      match alookup B k with
      | some rs => some rs
      | none => alookup A k) ∧
    (∀ k, (alookup ((schema A).extend B).rules k).isSome =
      ((alookup A k).isSome || (alookup B k).isSome)) ∧
    (schema A).rules = A := by
  refine ⟨rfl, ?_, ?_, rfl⟩
  · intro k
    show alookup (spreadMerge A B) k = _
    rw [alookup_spreadMerge]
    rcases hB : alookup B k with _ | w <;> simp [hB]
  · intro k
    have h := alookup_spreadMerge A B k
    show (alookup (spreadMerge A B) k).isSome = _
    rw [h]
    rcases alookup B k with _ | w <;> rcases alookup A k with _ | v <;> simp
